import Mathlib

/-!
Shallow embedding of `src/lib/structures/ScheduledEvent.js` (schedulebot).

Times are modelled as integers counting milliseconds since the UNIX epoch,
matching the numeric coercion moment.js applies in the source
(`moment() - cfg.happening_margin` coerces the moment to its millisecond
value, and `a.diff(b)` is the millisecond difference `a - b`).
Asynchronous store calls are modelled by passing their settled results
(`Except err value`, where `Except.error` is a rejected promise) into the
pure combination logic that the methods perform after the join.
-/

namespace ScheduleBot

/-- Embeds the fields of `config.js` that `ScheduledEvent.js` reads:
`cfg.default_timezone` (used in the constructor) and `cfg.happening_margin`
(a duration in milliseconds, used in `getStatus`). -/
structure Config where
  default_timezone : String
  happening_margin : Int
deriving DecidableEq

/-- Embeds `moment.unix(time).tz(zone)`: a UNIX timestamp in seconds becomes a
moment whose instant is `time * 1000` milliseconds since the epoch; `.tz`
changes only the display timezone, never the instant, so the timezone
argument does not affect the modelled value. -/
def momentUnixTz (time : Int) (zone : String) : Int :=
  time * 1000

/-- Embeds the `ScheduledEvent` class fields.  `time` is the stored moment
(milliseconds since epoch) or `none` for the JS `null`. -/
structure ScheduledEvent where
  id : Int
  name : String
  time : Option Int
  limit : Int
  instant : Bool
deriving DecidableEq

/-- Embeds the `ScheduledEvent` constructor:
`this.time = !instant ? moment.unix(time).tz(cfg.default_timezone) : null`,
with the remaining fields stored verbatim. -/
def ScheduledEvent.construct (cfg : Config) (id : Int) (name : String)
    (time : Int) (limit : Int) (instant : Bool) : ScheduledEvent :=
  ⟨id, name, if !instant then some (momentUnixTz time cfg.default_timezone) else none,
   limit, instant⟩

/-- Embeds `getStatus()`.  The method returns `"expired"` immediately for
instant events; otherwise it dereferences `this.time` (a `null` there would
throw in JS, modelled by `none`) and compares:
`this.time.diff(moment()) > 0` is `t - now > 0`, and
`this.time.diff(moment() - cfg.happening_margin) > 0` is
`t - (now - margin) > 0`. -/
def ScheduledEvent.getStatus (cfg : Config) (e : ScheduledEvent) (now : Int) :
    Option String :=
  if e.instant then
    some "expired"
  else
    match e.time with
    | none => none
    | some t =>
      if t - now > 0 then some "pending"
      else if t - (now - cfg.happening_margin) > 0 then some "happening"
      else some "expired"

/-- Embeds a row consumed by `getConfirms()`: the loop reads only
`confirms[i].user` and `confirms[i].attends`. -/
structure ConfirmRecord where
  user : String
  attends : Bool
deriving DecidableEq

/-- Embeds the `people` object fulfilled by `getConfirms()`. -/
structure People where
  confirmed : List String
  rejected : List String
  waiting : List String
deriving DecidableEq

/-- Embeds the `for` loop of `getConfirms()`: walk the records in order and
push `confirms[i].user` onto `confirmed` when `attends` holds, otherwise onto
`rejected` (a JS `push` appends at the end of the array). -/
def confirmLoop : List ConfirmRecord → List String → List String →
    List String × List String
  | [], confirmed, rejected => (confirmed, rejected)
  | c :: rest, confirmed, rejected =>
    if c.attends then confirmLoop rest (confirmed ++ [c.user]) rejected
    else confirmLoop rest confirmed (rejected ++ [c.user])

/-- Embeds `getConfirms()` after the `Promise.all` join.  The two arguments
are the settled results of `db.confirms.getByEvent(this)` (its resolved value
may be `null`, modelled by `none`) and of `db.events.getWaiting(this)` (a
falsy resolved value is modelled by `none`; the source replaces it via
`waiting || []`).  A rejection of either promise makes `Promise.all` reject
with that error and the `catch(reject)` surfaces it, so no `people` object is
produced. -/
def getConfirms {err : Type} (confirmsRes : Except err (Option (List ConfirmRecord)))
    (waitingRes : Except err (Option (List String))) : Except err People :=
  match confirmsRes, waitingRes with
  | .ok confirms, .ok waiting =>
    let cr :=
      match confirms with
      | none => ([], [])
      | some cs => confirmLoop cs [] []
    .ok ⟨cr.1, cr.2, waiting.getD []⟩
  | .error e, _ => .error e
  | .ok _, .error e => .error e

/-- Models the records the two stores hold for a single event id: whether the
event row still exists and whether its confirm rows still exist. -/
structure DbState where
  eventExists : Bool
  confirmsExist : Bool
deriving DecidableEq

/-- Embeds `deleteEvent()`.  The two deletions `db.events.deleteEvent(this.id)`
and `db.confirms.deleteByEvent(this.id)` are issued independently and joined
with `Promise.all`; each argument is the settled result of one deletion.  A
deletion that succeeded has removed its rows from the database; one that
failed left them.  The method body contains no compensation path, so the
returned state applies exactly the effects of the operations that succeeded,
and the overall promise fulfills only when both did. -/
def deleteEvent {err : Type} (st : DbState) (deleteEventRes : Except err Unit)
    (deleteConfirmsRes : Except err Unit) : DbState × Except err Unit :=
  let st1 : DbState :=
    ⟨match deleteEventRes with | .ok _ => false | .error _ => st.eventExists,
     match deleteConfirmsRes with | .ok _ => false | .error _ => st.confirmsExist⟩
  let result : Except err Unit :=
    match deleteEventRes, deleteConfirmsRes with
    | .ok _, .ok _ => .ok ()
    | .error e, _ => .error e
    | .ok _, .error e => .error e
  (st1, result)

/-- The users pushed by `confirmLoop` extend the accumulators with the users
of the matching records, in record order. -/
theorem confirmLoop_eq (l : List ConfirmRecord) (confirmed rejected : List String) :
    confirmLoop l confirmed rejected =
      (confirmed ++ (l.filter (fun r => r.attends)).map ConfirmRecord.user,
       rejected ++ (l.filter (fun r => !r.attends)).map ConfirmRecord.user) := by
  induction l generalizing confirmed rejected with
  | nil => simp [confirmLoop]
  | cons c rest ih =>
    cases hc : c.attends with
    | true => simp [confirmLoop, hc, ih]
    | false => simp [confirmLoop, hc, ih]

/-- C10: the `confirmed` and `rejected` arrays that `getConfirms` fulfills
with are exactly the order-preserving projections of the store records: the
users of the records with `attends` set, in record order, and the users of
the remaining records, in record order, with one entry per matching record
(duplicates kept); `waiting` is the waiting list or `[]`. -/
theorem getConfirms_order_and_multiplicity {err : Type}
    (records : List ConfirmRecord) (w : Option (List String)) :
    getConfirms (Except.ok (some records)) (Except.ok w) =
      (Except.ok ⟨(records.filter (fun r => r.attends)).map ConfirmRecord.user,
        (records.filter (fun r => !r.attends)).map ConfirmRecord.user,
        w.getD []⟩ : Except err People) := by
  simp [getConfirms, confirmLoop_eq]

/-- C5: when both reads resolve, `getConfirms` fulfills with `confirmed`
holding exactly the users of records with `attends = true` and `rejected`
exactly those with `attends = false`; a `null` or empty record collection
yields empty partitions and the call still fulfills. -/
theorem getConfirms_partition_membership {err : Type}
    (records : List ConfirmRecord) (w : Option (List String)) :
    (∀ confirmed rejected waiting,
      getConfirms (Except.ok (some records)) (Except.ok w) =
        (Except.ok ⟨confirmed, rejected, waiting⟩ : Except err People) →
      (∀ u, u ∈ confirmed ↔ ∃ r, r ∈ records ∧ r.attends = true ∧ r.user = u) ∧
      (∀ u, u ∈ rejected ↔ ∃ r, r ∈ records ∧ r.attends = false ∧ r.user = u)) ∧
    getConfirms (Except.ok none) (Except.ok w) =
      (Except.ok ⟨[], [], w.getD []⟩ : Except err People) ∧
    getConfirms (Except.ok (some [])) (Except.ok w) =
      (Except.ok ⟨[], [], w.getD []⟩ : Except err People) := by
  refine ⟨?_, rfl, rfl⟩
  intro confirmed rejected waiting h
  simp only [getConfirms, confirmLoop_eq, List.nil_append, Except.ok.injEq,
    People.mk.injEq] at h
  obtain ⟨hc, hr, hw⟩ := h
  subst hc
  subst hr
  constructor <;> intro u <;>
    simp [List.mem_map, List.mem_filter, and_assoc]

/-- Witness for C5: two records, one attending and one declining, with a null
waiting list. -/
theorem getConfirms_partition_membership_witness :
    @getConfirms String (Except.ok (some [⟨"a", true⟩, ⟨"b", false⟩]))
      (Except.ok none) = Except.ok ⟨["a"], ["b"], []⟩ ∧
    (("a" : String) ∈ (["a"] : List String) ↔
      ∃ r, r ∈ [ConfirmRecord.mk "a" true, ConfirmRecord.mk "b" false] ∧
        r.attends = true ∧ r.user = "a") :=
  ⟨rfl,
   ((@getConfirms_partition_membership String [⟨"a", true⟩, ⟨"b", false⟩]
     none).1 ["a"] ["b"] [] rfl).1 "a"⟩

/-- C7: with no ConfirmRecords and no waiting-list value, `getConfirms`
fulfills with all three arrays empty; whatever the record read resolved with,
a missing waiting-list value defaults to the empty array. -/
theorem getConfirms_empty_default {err : Type} :
    getConfirms (Except.ok none) (Except.ok none) =
      (Except.ok ⟨[], [], []⟩ : Except err People) ∧
    (∀ c : Option (List ConfirmRecord), ∀ confirmed rejected waiting,
      getConfirms (Except.ok c) (Except.ok none) =
        (Except.ok ⟨confirmed, rejected, waiting⟩ : Except err People) →
      waiting = []) := by
  refine ⟨rfl, ?_⟩
  intro c confirmed rejected waiting h
  cases c <;>
    simp only [getConfirms, Option.getD_none, Except.ok.injEq,
      People.mk.injEq] at h <;>
    exact h.2.2.symm

/-- Witness for C7: one attending record and a missing waiting list. -/
theorem getConfirms_empty_default_witness :
    @getConfirms String (Except.ok (some [⟨"a", true⟩])) (Except.ok none) =
      Except.ok ⟨["a"], [], []⟩ ∧ ([] : List String) = [] :=
  ⟨rfl,
   (@getConfirms_empty_default String).2 (some [⟨"a", true⟩]) ["a"] [] [] rfl⟩

/-- C6: `getConfirms` fulfills whenever both reads resolve, and rejects with
an error of a failing read otherwise, producing no view: a rejection of the
record read surfaces that error whatever the other result, and a rejection of
the waiting read alone surfaces that error.  The case split over the four
settled-result combinations establishes that it rejects exactly when at least
one read fails. -/
theorem getConfirms_error_iff {err : Type} (c : Option (List ConfirmRecord))
    (w : Option (List String)) (e e2 : err) :
    (∃ p, getConfirms (Except.ok c) (Except.ok w) =
      (Except.ok p : Except err People)) ∧
    getConfirms (Except.error e) (Except.ok w) =
      (Except.error e : Except err People) ∧
    getConfirms (Except.ok c) (Except.error e) =
      (Except.error e : Except err People) ∧
    getConfirms (Except.error e) (Except.error e2) =
      (Except.error e : Except err People) :=
  ⟨⟨_, rfl⟩, rfl, rfl, rfl⟩

/-- C9: the `waiting` array in the fulfilled view is verbatim the value the
waiting read resolved with whenever that value was present, regardless of the
ConfirmRecords, so users occurring both in a record and on the waiting list
are not removed. -/
theorem getConfirms_waiting_passthrough {err : Type}
    (confirms : Option (List ConfirmRecord)) (ws : List String) :
    ∀ confirmed rejected waiting,
      getConfirms (Except.ok confirms) (Except.ok (some ws)) =
        (Except.ok ⟨confirmed, rejected, waiting⟩ : Except err People) →
      waiting = ws := by
  intro confirmed rejected waiting h
  cases confirms <;>
    simp only [getConfirms, Option.getD_some, Except.ok.injEq,
      People.mk.injEq] at h <;>
    exact h.2.2.symm

/-- Witness for C9: a user who both confirmed and sits on the waiting list is
kept in `waiting`. -/
theorem getConfirms_waiting_passthrough_witness :
    @getConfirms String (Except.ok (some [⟨"u", true⟩]))
      (Except.ok (some ["u"])) = Except.ok ⟨["u"], [], ["u"]⟩ ∧
    (["u"] : List String) = ["u"] :=
  ⟨rfl,
   @getConfirms_waiting_passthrough String (some [⟨"u", true⟩]) ["u"]
     ["u"] [] ["u"] rfl⟩

/-- C3 counterexample: with store results holding the same user as an
attending record and as a waiting entry, the view returned by `getConfirms`
has that user in both `confirmed` and `waiting`, so the three sets are not
pairwise disjoint for every pair of store results. -/
theorem getConfirms_disjoint_counterexample :
    @getConfirms String (Except.ok (some [⟨"u", true⟩]))
      (Except.ok (some ["u"])) = Except.ok ⟨["u"], [], ["u"]⟩ ∧
    ¬ (∀ u : String, u ∈ (["u"] : List String) → u ∉ (["u"] : List String)) :=
  ⟨rfl, fun h => h "u" (by simp) (by simp)⟩

/-- C3 amended: if no user occurs in two ConfirmRecords and no waiting user
occurs in any ConfirmRecord (the store being authoritative), the three sets
of the view are pairwise disjoint. -/
theorem getConfirms_disjoint {err : Type} (records : List ConfirmRecord)
    (ws : List String)
    (hnodup : (records.map ConfirmRecord.user).Nodup)
    (hws : ∀ u, u ∈ ws → u ∉ records.map ConfirmRecord.user) :
    ∀ confirmed rejected waiting,
      getConfirms (Except.ok (some records)) (Except.ok (some ws)) =
        (Except.ok ⟨confirmed, rejected, waiting⟩ : Except err People) →
      (∀ u, u ∈ confirmed → u ∉ rejected) ∧
      (∀ u, u ∈ confirmed → u ∉ waiting) ∧
      (∀ u, u ∈ rejected → u ∉ waiting) := by
  intro confirmed rejected waiting h
  simp only [getConfirms, confirmLoop_eq, List.nil_append, Option.getD_some,
    Except.ok.injEq, People.mk.injEq] at h
  obtain ⟨hc, hr, hw⟩ := h
  subst hc
  subst hr
  subst hw
  refine ⟨?_, ?_, ?_⟩
  · intro u hu1 hu2
    simp only [List.mem_map, List.mem_filter] at hu1 hu2
    obtain ⟨r1, ⟨hm1, ha1⟩, he1⟩ := hu1
    obtain ⟨r2, ⟨hm2, ha2⟩, he2⟩ := hu2
    have : r1 = r2 :=
      List.inj_on_of_nodup_map hnodup hm1 hm2 (he1.trans he2.symm)
    rw [this] at ha1
    rw [ha1] at ha2
    simp at ha2
  · intro u hu1 hu2
    simp only [List.mem_map, List.mem_filter] at hu1
    obtain ⟨r1, ⟨hm1, ha1⟩, he1⟩ := hu1
    exact hws u hu2 (he1 ▸ List.mem_map_of_mem ConfirmRecord.user hm1)
  · intro u hu1 hu2
    simp only [List.mem_map, List.mem_filter] at hu1
    obtain ⟨r1, ⟨hm1, ha1⟩, he1⟩ := hu1
    exact hws u hu2 (he1 ▸ List.mem_map_of_mem ConfirmRecord.user hm1)

/-- Witness for C3: a store answer with distinct responding users and a
disjoint waiting list gives a pairwise disjoint view. -/
theorem getConfirms_disjoint_witness :
    ([ConfirmRecord.mk "a" true, ConfirmRecord.mk "b" false].map
      ConfirmRecord.user).Nodup ∧
    (∀ u, u ∈ (["c"] : List String) →
      u ∉ [ConfirmRecord.mk "a" true, ConfirmRecord.mk "b" false].map
        ConfirmRecord.user) ∧
    ((∀ u, u ∈ (["a"] : List String) → u ∉ (["b"] : List String)) ∧
     (∀ u, u ∈ (["a"] : List String) → u ∉ (["c"] : List String)) ∧
     (∀ u, u ∈ (["b"] : List String) → u ∉ (["c"] : List String))) :=
  ⟨by decide, by decide,
   @getConfirms_disjoint String [⟨"a", true⟩, ⟨"b", false⟩] ["c"] (by decide)
     (by decide) ["a"] ["b"] ["c"] rfl⟩

/-- C1 (code evaluated at the failing input): for the non-instant event built
from UNIX time 0 with `happening_margin = 600000` ms, at the boundary instant
`now = scheduledTime + margin = 600000` the window condition of the claim
holds (`now ≥ scheduledTime` and `now ≤ scheduledTime + margin`), yet
`getStatus` returns `"expired"`, not `"happening"`: the source compares with a
strict `>` in `this.time.diff(moment() - cfg.happening_margin) > 0`, which
excludes the upper boundary instant. -/
theorem getStatus_upper_boundary_expired :
    (ScheduledEvent.construct ⟨"UTC", 600000⟩ 2 "ev" 0 10 false).time = some 0 ∧
    ((0 : Int) ≤ 600000 ∧ (600000 : Int) ≤ 0 + 600000) ∧
    ScheduledEvent.getStatus ⟨"UTC", 600000⟩
      (ScheduledEvent.construct ⟨"UTC", 600000⟩ 2 "ev" 0 10 false) 600000 =
      some "expired" := by
  refine ⟨rfl, ⟨by norm_num, by norm_num⟩, rfl⟩

/-- C4: for every event whose `instant` field is true, `getStatus` returns
`"expired"`, whatever the configuration (hence the margin), the stored time
and the current time. -/
theorem getStatus_instant_expired (cfg : Config) (id : Int) (name : String)
    (time : Option Int) (limit : Int) (now : Int) :
    ScheduledEvent.getStatus cfg ⟨id, name, time, limit, true⟩ now =
      some "expired" := rfl

/-- C8: every event produced by the constructor satisfies
`time = none ↔ instant = true`; the embedding is immutable, matching the
source class, whose methods never assign `this.time` or `this.instant`. -/
theorem construct_time_none_iff_instant (cfg : Config) (id : Int) (name : String)
    (time : Int) (limit : Int) (instant : Bool) :
    ((ScheduledEvent.construct cfg id name time limit instant).time = none ↔
      (ScheduledEvent.construct cfg id name time limit instant).instant = true) := by
  cases instant <;> simp [ScheduledEvent.construct]

/-- Witness for C8 at concrete inputs: an instant event stores a null time and
a scheduled event does not. -/
theorem construct_time_none_iff_instant_witness :
    (ScheduledEvent.construct ⟨"UTC", 600000⟩ 1 "a" 0 5 true).time = none ∧
    (ScheduledEvent.construct ⟨"UTC", 600000⟩ 1 "a" 7 5 false).time ≠ none :=
  ⟨(construct_time_none_iff_instant ⟨"UTC", 600000⟩ 1 "a" 0 5 true).mpr rfl,
   fun h =>
     absurd ((construct_time_none_iff_instant ⟨"UTC", 600000⟩ 1 "a" 7 5 false).mp h)
       (by decide)⟩

/-- C2: `deleteEvent` fulfills exactly when both underlying deletions
succeeded; when either fails it rejects with one of the underlying errors,
and the rows removed by a deletion that did succeed stay removed (no
rollback). -/
theorem deleteEvent_join_no_rollback {err : Type} (st : DbState)
    (er cr : Except err Unit) :
    ((deleteEvent st er cr).2 = Except.ok () ↔
      er = Except.ok () ∧ cr = Except.ok ()) ∧
    (er = Except.ok () → (deleteEvent st er cr).1.eventExists = false) ∧
    (cr = Except.ok () → (deleteEvent st er cr).1.confirmsExist = false) ∧
    (∀ e : err, (deleteEvent st er cr).2 = Except.error e →
      er = Except.error e ∨ cr = Except.error e) := by
  cases er with
  | ok u => cases cr with
    | ok v => simp [deleteEvent]
    | error e => simp [deleteEvent]
  | error e => cases cr with
    | ok v => simp [deleteEvent]
    | error e2 => simp [deleteEvent]

/-- Witness for C2: with the event-row deletion succeeding and the
confirm-rows deletion failing, the call rejects with that error while the
event row is already gone. -/
theorem deleteEvent_join_no_rollback_witness :
    (deleteEvent ⟨true, true⟩ (Except.ok ()) (Except.error "boom")).2 =
      Except.error "boom" ∧
    (deleteEvent ⟨true, true⟩ (Except.ok ()) (Except.error "boom")).1.eventExists =
      false :=
  ⟨rfl,
   (deleteEvent_join_no_rollback ⟨true, true⟩ (Except.ok ())
     (Except.error "boom")).2.1 rfl⟩

end ScheduleBot
